import Mathlib

/-!
Verification of the `sandswitches` FreeSWITCH configuration manager
(`sandswitches/manage.py`).

The development shallowly embeds the module's operations:

* the `fs_cli` wrapper `cli.__call__` (error classification on `-ERR`
  and caller predicates),
* `ConfigManager.sofia_status` (status-table parser),
* `ConfigManager.get_users` (user-directory parser and filter allow-list),
* `ConfigManager.commit` / `ConfigManager.revert`,
* `manage_config` (document aggregation and its idempotence branch,
  including the tail/text normalization loop).

Python strings are modelled by `String` (logically a list of characters)
and every Python `str` primitive used by the module (`strip`, `lower`,
`split`, `splitlines`, `in`, `startswith`, `join`) is given an executable
model below.  Python dicts (which preserve insertion order and have unique
keys) are modelled by association lists with order-preserving update.
Fallible Python code (exceptions) is modelled with `Option`/`Except`.
Remote effects (sftp uploads, console commands) are modelled by explicit
state passing plus an event trace.
-/

namespace Sandswitches

/-! ## Models of the Python string primitives -/

/-- Characters of `s` with leading whitespace removed. -/
def stripLeading : List Char → List Char
  | [] => []
  | c :: cs => if c.isWhitespace then stripLeading cs else c :: cs

/-- Model of Python `str.strip()`: remove leading and trailing whitespace. -/
def pyStrip (s : String) : String :=
  String.mk ((stripLeading (stripLeading s.data.reverse).reverse))

/-- Model of Python `str.lower()` (ASCII case folding suffices here). -/
def pyLower (s : String) : String :=
  String.mk (s.data.map Char.toLower)

/-- Splitting worker for `pySplitSep`; `fuel` bounds the recursion and is
always at least the length of the remaining input, so the `fuel = 0` case
is never reached on the initial call. -/
def sepSplitGo (sep : List Char) : Nat → List Char → List Char → List (List Char)
  | _, acc, [] => [acc.reverse]
  | 0, acc, rest => [acc.reverse ++ rest]
  | fuel + 1, acc, c :: rest =>
      if sep.isPrefixOf (c :: rest) then
        acc.reverse :: sepSplitGo sep fuel [] (List.drop (sep.length - 1) rest)
      else
        sepSplitGo sep fuel (c :: acc) rest

/-- Model of Python `str.split(sep)` for a non-empty separator `sep`:
split on each leftmost non-overlapping occurrence, keeping empty parts. -/
def pySplitSep (s : String) (sep : String) : List String :=
  (sepSplitGo sep.data s.data.length [] s.data).map String.mk

/-- The number of non-overlapping occurrences of `sep` in `s`, counted the
way Python `str.split` does (leftmost first): one less than the number of
parts produced by the split. -/
def occCount (s : String) (sep : String) : Nat :=
  (pySplitSep s sep).length - 1

/-- Worker for `pySplitlines`. -/
def splitlinesGo : List Char → List Char → List (List Char)
  | acc, [] => if acc.isEmpty then [] else [acc.reverse]
  | acc, '\r' :: '\n' :: rest => acc.reverse :: splitlinesGo [] rest
  | acc, '\n' :: rest => acc.reverse :: splitlinesGo [] rest
  | acc, '\r' :: rest => acc.reverse :: splitlinesGo [] rest
  | acc, c :: rest => splitlinesGo (c :: acc) rest

/-- Model of Python `str.splitlines()` for the line terminators that occur
in console output (`\n`, `\r\n`, `\r`): no trailing empty line is
produced for a trailing terminator. -/
def pySplitlines (s : String) : List String :=
  (splitlinesGo [] s.data).map String.mk

/-- Worker for `pySplitWs`. -/
def splitWsGo : List Char → List Char → List (List Char)
  | acc, [] => if acc.isEmpty then [] else [acc.reverse]
  | acc, c :: rest =>
      if c.isWhitespace then
        if acc.isEmpty then splitWsGo [] rest else acc.reverse :: splitWsGo [] rest
      else splitWsGo (c :: acc) rest

/-- Model of Python `str.split()` with no argument: split on runs of
whitespace, producing no empty parts. -/
def pySplitWs (s : String) : List String :=
  (splitWsGo [] s.data).map String.mk

/-- Model of the Python substring test `sub in s`. -/
def pyContains (s : String) (sub : String) : Bool :=
  s.data.tails.any (fun t => sub.data.isPrefixOf t)

/-- Model of Python `str.startswith(p)`. -/
def pyStartsWith (s : String) (p : String) : Bool :=
  p.data.isPrefixOf s.data

/-- Model of Python `sep.join(parts)`. -/
def pyJoin (sep : String) : List String → String
  | [] => ""
  | [s] => s
  | s :: rest => String.mk (s.data ++ sep.data ++ (pyJoin sep rest).data)

/-- Model of Python `list.index(x)` (`none` models the `ValueError`). -/
def pyIndex (l : List String) (x : String) : Option Nat :=
  match l with
  | [] => none
  | y :: ys => if y = x then some 0 else (pyIndex ys x).map (· + 1)

/-- Model of Python `list.remove(x)`: drop the first occurrence of `x`.
(The module only calls it when `x` is known to be present.) -/
def pyRemove (l : List String) (x : String) : List String :=
  match l with
  | [] => []
  | y :: ys => if y = x then ys else y :: pyRemove ys x

/-- Model of Python `list.pop(i)` for `i ≥ 0`: the removed element and the
remaining list (`none` models the `IndexError`). -/
def pyPop : List α → Nat → Option (α × List α)
  | [], _ => none
  | x :: xs, 0 => some (x, xs)
  | x :: xs, n + 1 => (pyPop xs n).map (fun r => (r.1, x :: r.2))

/-! ## Models of Python dicts (insertion-ordered, unique keys) -/

/-- Dict lookup `m[k]` on an association list with unique keys. -/
def dlookup {α : Type} : List (String × α) → String → Option α
  | [], _ => none
  | p :: m, k => if p.1 = k then some p.2 else dlookup m k

/-- Dict assignment `m[k] = v`: replace in place if the key is present
(keeping its position, as Python dicts do), otherwise append at the end. -/
def dinsert {α : Type} : List (String × α) → String → α → List (String × α)
  | [], k, v => [(k, v)]
  | p :: m, k, v => if p.1 = k then (k, v) :: m else p :: dinsert m k v

/-- Dict `m.pop(k)`: the value at `k` and the dict without `k`
(`none` models the `KeyError`). -/
def dpop {α : Type} : List (String × α) → String → Option (α × List (String × α))
  | [], _ => none
  | p :: m, k =>
      if p.1 = k then some (p.2, m)
      else (dpop m k).map (fun r => (r.1, p :: r.2))

/-- Model of `m.setdefault(k, []).append(v)` on a dict of lists. -/
def dappend {α : Type} : List (String × List α) → String → α → List (String × List α)
  | [], k, v => [(k, [v])]
  | g :: m, k, v =>
      if g.1 = k then (g.1, g.2 ++ [v]) :: m else g :: dappend m k v

/-- Model of a Python dict comprehension: insert the pairs left to right
(later values for the same key overwrite earlier ones). -/
def dictOf {α : Type} (ps : List (String × α)) : List (String × α) :=
  ps.foldl (fun m p => dinsert m p.1 p.2) []

/-! ## The console client `cli` (`manage.py`, class `cli`)

A transport session is modelled as a function from the command text passed
to `fs_cli -x` to either the raw output (`Except.ok`) or the message of a
`ProcessExecutionError` (`Except.error`). -/

/-- The exception taxonomy of the module: `CLIConnectionError`,
`CLIError`, and the `ValueError` raised by `get_users` (the spec's
`ConnectionError`, `CommandError` and `ArgumentError`). -/
inductive FsError where
  | connection (msg : String)
  | cliError (out : String)
  | valueError (msg : String)
  deriving DecidableEq

instance {ε α : Type} [DecidableEq ε] [DecidableEq α] :
    DecidableEq (Except ε α) := fun x y =>
  match x, y with
  | .ok a, .ok b =>
      if h : a = b then isTrue (by rw [h]) else isFalse (by simp [h])
  | .error a, .error b =>
      if h : a = b then isTrue (by rw [h]) else isFalse (by simp [h])
  | .ok _, .error _ => isFalse (by simp)
  | .error _, .ok _ => isFalse (by simp)

/-- `lines and lines[-1].startswith('-ERR')` from `cli.__call__`. -/
def lastStartsERR (lines : List String) : Bool :=
  match lines.getLast? with
  | some l => pyStartsWith l "-ERR"
  | none => false

/-- `cli.__call__`: join the tokens with single spaces, run the command,
strip the output, raise `CLIConnectionError` on transport failure, raise
`CLIError` if the last output line starts with `-ERR` or if any
caller-supplied `erroron` predicate accepts the output, and otherwise
return the stripped output.  (Python iterates the `erroron` dict and
raises at the first predicate returning a truthy value; since the raised
error carries the same payload for every predicate, `List.any` is an
equivalent model.) -/
def cli_call (exec : String → Except String String) (tokens : List String)
    (erroron : List (String → Bool)) : Except FsError String :=
  match exec (pyJoin " " tokens) with
  | .error msg => .error (.connection msg)
  | .ok raw =>
      let out := pyStrip raw
      let lines := pySplitlines out
      if lastStartsERR lines then .error (.cliError out)
      else if erroron.any (fun f => f out) then .error (.cliError out)
      else .ok out

/-- Modelled from the spec: the console client used by `ConfigManager`
and `manage_config` exposes an `api` method (the class constructing it is
not part of the sources; §4.1/§6 of the spec describe the call as an
`fs_cli -x` invocation of the given command, e.g. `api reloadxml`). -/
def cli_api (exec : String → Except String String) (cmd : String) :
    Except FsError String :=
  cli_call exec ["api", cmd] []

/-! ## `ConfigManager.sofia_status` -/

/-- A parsed table row / user record: an insertion-ordered dict from
(lower-cased) column name to field value. -/
abbrev Row := List (String × String)

/-- The three maps built by `sofia_status`. -/
structure SofiaStatus where
  profiles : List (String × Row)
  gateways : List (String × Row)
  aliases : List (String × Row)
  deriving DecidableEq

/-- One iteration of the row loop of `sofia_status`, up to extracting the
`name` field: split the line on tabs, strip each field, pop the field at
the `name` column's original index (`none` models the `IndexError`), and
zip the remaining column names with the remaining fields into a dict with
lower-cased keys. -/
def sofia_row (colnames : List String) (iname : Nat) (line : String) :
    Option (String × Row) :=
  let fields := (pySplitSep line "\t").map pyStrip
  match pyPop fields iname with
  | none => none
  | some (name, rest) =>
      some (name, dictOf ((colnames.zip rest).map (fun p => (pyLower p.1, p.2))))

/-- The dispatch on the popped `type` field of a row: `profile` rows and
`alias` rows are stored under their name; `gateway` rows are stored under
the part of the name after `::`, with the part before `::` added as a
`profile` field (`none` models the `ValueError` of the tuple unpacking
when the name does not split into exactly two parts, and the `KeyError`
when the row has no `type` column); rows of any other type leave the
maps unchanged. -/
def sofia_dispatch (st : SofiaStatus) (name : String) (row : Row) :
    Option SofiaStatus :=
  match dpop row "type" with
  | none => none
  | some (tp, row1) =>
      if tp = "profile" then
        some { st with profiles := dinsert st.profiles name row1 }
      else if tp = "gateway" then
        match pySplitSep name "::" with
        | [profname, gwname] =>
            let gws := dinsert st.gateways gwname (dinsert row1 "profile" profname)
            some { st with gateways := gws }
        | _ => none
      else if tp = "alias" then
        some { st with aliases := dinsert st.aliases name row1 }
      else
        some st

/-- One iteration of the `for line in lines` loop of `sofia_status`. -/
def sofia_step (colnames : List String) (iname : Nat) (st : SofiaStatus)
    (line : String) : Option SofiaStatus :=
  match sofia_row colnames iname line with
  | none => none
  | some nr => sofia_dispatch st nr.1 nr.2

/-- The `for line in lines` loop of `sofia_status`. -/
def sofia_fold (colnames : List String) (iname : Nat) :
    SofiaStatus → List String → Option SofiaStatus
  | st, [] => some st
  | st, line :: rest =>
      match sofia_step colnames iname st line with
      | none => none
      | some st1 => sofia_fold colnames iname st1 rest

/-- `ConfigManager.sofia_status`, applied to the text returned by
`fscli.api('sofia status')`: drop every line containing `===`, pop the
summary line (`none` models the `IndexError` on an empty list), pop the
header line, lower-case and whitespace-split it into column names, locate
and remove the `name` column (`none` models the `ValueError` of
`list.index`), and run the row loop starting from three empty maps. -/
def sofia_status (out : String) : Option SofiaStatus :=
  let lines := (pySplitlines out).filter (fun l => !(pyContains l "==="))
  match lines with
  | [] => none
  | _ :: _ =>
      match lines.dropLast with
      | [] => none
      | header :: dataLines =>
          let colnames0 := (pySplitWs header).map pyLower
          match pyIndex colnames0 "name" with
          | none => none
          | some iname =>
              sofia_fold (pyRemove colnames0 "name") iname ⟨[], [], []⟩ dataLines

/-! ## `ConfigManager.get_users` -/

/-- The Python keywords, which `collections.namedtuple` rejects as field
names. -/
def pyKeywords : List String :=
  ["False", "None", "True", "and", "as", "assert", "async", "await",
   "break", "class", "continue", "def", "del", "elif", "else", "except",
   "finally", "for", "from", "global", "if", "lambda", "nonlocal",
   "not", "or", "pass", "raise", "return", "try", "while", "with",
   "yield", "import", "in", "is"]

/-- A character allowed after the first position of a Python identifier. -/
def pyIdentChar (c : Char) : Bool :=
  c.isAlphanum || c = '_'

/-- Validity of one `namedtuple` field name: a Python identifier that is
not a keyword and does not start with an underscore (which for the first
character means it must be a letter). -/
def fieldNameOK (s : String) : Bool :=
  match s.data with
  | [] => false
  | c :: rest => c.isAlpha && rest.all pyIdentChar && !(pyKeywords.contains s)

/-- Validity of the whole field-name list passed to
`namedtuple("UserEntry", ...)`: every name valid and no duplicates
(`namedtuple` raises `ValueError` otherwise). -/
def namedtupleFieldsOK (fields : List String) : Bool :=
  fields.all fieldNameOK && fields.eraseDups.length = fields.length

/-- `UserEntry(*row.split('|'))`: build one user record by zipping the
header field names with the pipe-split values; `none` models the
`TypeError` when the field count does not match the header. -/
def mk_user_entry (fields : List String) (row : String) : Option Row :=
  let vals := pySplitSep row "|"
  if vals.length = fields.length then some (fields.zip vals) else none

/-- The `for row in res[1:]` loop of `get_users`. -/
def parse_user_rows (fields : List String) : List String → Option (List Row)
  | [] => some []
  | r :: rs =>
      match mk_user_entry fields r with
      | none => none
      | some u =>
          match parse_user_rows fields rs with
          | none => none
          | some us => some (u :: us)

/-- The `domains.setdefault(user.domain, []).append(user)` loop of
`get_users`; accessing `user.domain` fails (`AttributeError`, modelled by
`none`) when the records have no `domain` field.  (On a `namedtuple`,
whose field names are unique, attribute access agrees with ordered
association-list lookup.) -/
def pack_domains : List (String × List Row) → List Row →
    Option (List (String × List Row))
  | m, [] => some m
  | m, u :: us =>
      match dlookup u "domain" with
      | none => none
      | some d => pack_domains (dappend m d u) us

/-- The parsing part of `ConfigManager.get_users`, applied to the text
returned by the `list_users` console command: drop the last two lines,
treat the first remaining line as a pipe-delimited header naming the
record fields, parse each remaining line into a record, and group the
records by their `domain` field.  `none` models the Python exceptions
(`IndexError` on an empty list, `ValueError` from `namedtuple`,
`TypeError` on a field-count mismatch, `AttributeError` on a missing
`domain` field). -/
def get_users_parse (out : String) : Option (List (String × List Row)) :=
  let res := (pySplitlines out).dropLast.dropLast
  match res with
  | [] => none
  | header :: rows =>
      let fields := pySplitSep header "|"
      if namedtupleFieldsOK fields then
        match parse_user_rows fields rows with
        | none => none
        | some users => pack_domains [] users
      else none

/-- The `allowed` tuple of `get_users`. -/
def allowedUserFilters : List String :=
  ["domain", "group", "user", "context"]

/-- The argument-validation loop of `get_users`: each keyword argument
must be in the allow-list, and contributes the token `"<name> <value>"`;
the first invalid name raises `ValueError` (`Except.error` carries the
message). -/
def build_user_args : List (String × String) → Except String (List String)
  | [] => .ok []
  | (k, v) :: rest =>
      if k ∈ allowedUserFilters then
        match build_user_args rest with
        | .error m => .error m
        | .ok args => .ok (pyJoin " " [k, v] :: args)
      else .error (pyJoin "" [k, " is not a valid argument to list_users"])

/-- `ConfigManager.get_users`: validate the filters, then (only if they
validate) invoke the `list_users` console command and parse its output.
The second component records the command texts executed through the
transport, in order. -/
def get_users (kwargs : List (String × String))
    (exec : String → Except String String) :
    Except FsError (Option (List (String × List Row))) × List String :=
  match build_user_args kwargs with
  | .error m => (.error (.valueError m), [])
  | .ok args =>
      match cli_call exec ("list_users" :: args) [] with
      | .error e => (.error e, [pyJoin " " ("list_users" :: args)])
      | .ok out => (.ok (get_users_parse out), [pyJoin " " ("list_users" :: args)])

/-! ## The XML document tree (the lxml `etree` objects held in memory)

An element carries a tag, an ordered attribute map, optional text content,
optional tail text, and an ordered list of children (represented by the
mutually defined `XForest` so that all recursions are structural). -/

mutual
inductive XTree where
  | elem (tag : String) (attrs : List (String × String))
      (text tail : Option String) (children : XForest)
  deriving DecidableEq
inductive XForest where
  | nil
  | cons (t : XTree) (ts : XForest)
  deriving DecidableEq
end

/-- The children of an element, as a `List`. -/
def XForest.toList : XForest → List XTree
  | .nil => []
  | .cons t ts => t :: ts.toList

def XTree.tagOf : XTree → String
  | .elem tag _ _ _ _ => tag

def XTree.attrsOf : XTree → List (String × String)
  | .elem _ attrs _ _ _ => attrs

def XTree.textOf : XTree → Option String
  | .elem _ _ text _ _ => text

def XTree.tailOf : XTree → Option String
  | .elem _ _ _ tail _ => tail

def XTree.childrenOf : XTree → List XTree
  | .elem _ _ _ _ ch => ch.toList

mutual
/-- The elements of a tree in document (preorder) sequence: the model of
`root.iter()`. -/
def XTree.nodes : XTree → List XTree
  | .elem tag attrs text tail ch => .elem tag attrs text tail ch :: ch.nodes
def XForest.nodes : XForest → List XTree
  | .nil => []
  | .cons t ts => t.nodes ++ ts.nodes
end

/-- Rendering of one attribute list as ` k="v" ...`. -/
def renderAttrs : List (String × String) → String
  | [] => ""
  | (k, v) :: rest => pyJoin "" [" ", k, "=\"", v, "\"", renderAttrs rest]

mutual
/-- Model of `etree.tostring(tree, pretty_print=True)`: a deterministic
indented serialization (two-space indent per depth level, one element per
line, text immediately after the opening tag, tail after the element), as
lxml produces for the trees handled here. -/
def XTree.render (depth : Nat) : XTree → String
  | .elem tag attrs text tail ch =>
      let pad := String.mk (List.replicate (2 * depth) ' ')
      match text, ch with
      | none, .nil =>
          pyJoin "" [pad, "<", tag, renderAttrs attrs, "/>\n", tail.getD ""]
      | _, _ =>
          pyJoin "" [pad, "<", tag, renderAttrs attrs, ">", (text.getD ""),
            "\n", XForest.render (depth + 1) ch, pad, "</", tag, ">\n",
            tail.getD ""]
def XForest.render (depth : Nat) : XForest → String
  | .nil => ""
  | .cons t ts => pyJoin "" [XTree.render depth t, XForest.render depth ts]
end

/-- `etree.tostring(self.etree, pretty_print=True)`, the byte content
uploaded by `commit` and written by `manage_config`. -/
def tostring_pretty (t : XTree) : String :=
  t.render 0

/-! ## `ConfigManager.commit` / `ConfigManager.revert` -/

/-- The remote effects performed by the manager, in order. -/
inductive Ev where
  | putFile (path : String) (content : String)
  | runCmd (cmd : String)
  | renameFile (oldPath newPath : String)
  deriving DecidableEq

/-- Modelled from the spec (§4.3): `RestoreFile` (imported from the
`utils` module, which is not among the sources) identifies a remote path
plus a byte snapshot captured at construction time. -/
structure RestoreFile where
  path : String
  snapshot : String
  deriving DecidableEq

/-- Modelled from the spec (§4.3): `RestoreFile.restore` overwrites the
file at the path with the previously captured byte snapshot. -/
def RestoreFile.restore (rf : RestoreFile) (files : List (String × String)) :
    List (String × String) :=
  dinsert files rf.path rf.snapshot

/-- The state owned by a `ConfigManager`: the in-memory tree, the
restorable root file, and (for the effect model) the remote filesystem as
a map from path to byte content. -/
structure ConfigMgr where
  etree : XTree
  file : RestoreFile
  files : List (String × String)
  deriving DecidableEq

/-- `ConfigManager.revert`: log the path and delegate to the restorable
file's restore.  The in-memory tree is not touched. -/
def ConfigMgr.revert (m : ConfigMgr) : ConfigMgr :=
  { m with files := m.file.restore m.files }

/-- `ConfigManager.commit`: serialize the in-memory tree with
`pretty_print=True`, upload the bytes to the managed path
(`sftp.putfo`, modelled as a map update), then invoke the console
client's `reloadxml` command.  `t0` is the clock reading taken at entry
(`now = time.time()`) and `t1` the reading taken for the final debug log;
on a successful reload the logged elapsed duration `t1 - t0` is returned,
and a reload failure propagates (the upload having already happened).
The event list records the remote effects in program order. -/
def ConfigMgr.commit (m : ConfigMgr) (exec : String → Except String String)
    (t0 t1 : Int) : Except FsError Int × ConfigMgr × List Ev :=
  let bytes := tostring_pretty m.etree
  let m1 := { m with files := dinsert m.files m.file.path bytes }
  let trace := [Ev.putFile m.file.path bytes,
    Ev.runCmd (pyJoin " " ["api", "reloadxml"])]
  match cli_api exec "reloadxml" with
  | .error e => (.error e, m1, trace)
  | .ok _ => (.ok (t1 - t0), m1, trace)

/-! ## `manage_config` -/

/-- `s for s in text.splitlines() if s.strip()` joined with `os.linesep`
(the package is Linux-only, so the separator is `"\n"`): the text
normalization applied to every element during aggregation. -/
def normText (s : String) : String :=
  pyJoin "\n" ((pySplitlines s).filter (fun l => !(pyStrip l).data.isEmpty))

mutual
/-- The `for elem in root.iter()` normalization loop of `manage_config`:
every element's tail is set to `None`, and every element text that is not
`None` is replaced by its non-blank lines joined with the line
separator. -/
def XTree.normalize : XTree → XTree
  | .elem tag attrs text _ ch =>
      .elem tag attrs (text.map normText) none ch.normalize
def XForest.normalize : XForest → XForest
  | .nil => .nil
  | .cons t ts => .cons t.normalize ts.normalize
end

/-- `tree.xpath('section/configuration[@name="sofia.conf"]')`: the
`section` children of the root whose `configuration` children carry the
attribute `name="sofia.conf"`. -/
def xpath_sofia (root : XTree) : List XTree :=
  (root.childrenOf.filter (fun c => c.tagOf = "section")).flatMap
    (fun s => s.childrenOf.filter
      (fun c => c.tagOf = "configuration" && dlookup c.attrsOf "name" = some "sofia.conf"))

/-- `os.path.join(rootpath, 'freeswitch.xml')` for a directory path
without a trailing separator. -/
def confPath (rootpath : String) : String :=
  pyJoin "/" [rootpath, "freeswitch.xml"]

/-- `manage_config`: download and parse the root config (`parse` models
the external lxml parser; `none` models a transfer failure when the file
is absent), and probe it for the sofia configuration section.  If the
probe matches, the tree is used as is and no remote effect is performed.
Otherwise the server's merged view is fetched (`xml_locate root`),
parsed and normalized, the existing root file is renamed to a timestamped
backup (`backupSuffix` models `time.strftime('_backup_...')`), and the
normalized tree's serialization is written to the root path.  Returns the
final tree, the final remote filesystem, and the remote-effect trace
(the construction of the `ConfigManager` and the schema-bound sections is
outside the claims considered here). -/
def manage_config (files : List (String × String)) (rootpath : String)
    (parse : String → XTree) (exec : String → Except String String)
    (backupSuffix : String) :
    Option (XTree × List (String × String) × List Ev) :=
  let cp := confPath rootpath
  match dlookup files cp with
  | none => none
  | some bytes =>
      let tree := parse bytes
      if (xpath_sofia tree).isEmpty then
        match cli_api exec "xml_locate root" with
        | .error _ => none
        | .ok merged =>
            let root2 := (parse merged).normalize
            let backup := pyJoin "" [cp, backupSuffix]
            let files1 :=
              match dpop files cp with
              | none => files
              | some (v, rest) => dinsert rest backup v
            let files2 := dinsert files1 cp (tostring_pretty root2)
            some (root2, files2,
              [Ev.renameFile cp backup, Ev.putFile cp (tostring_pretty root2)])
      else
        some (tree, files, [])

/-! ## Abstractions used to state the claims -/

/-- Worker for `firstSeen`: `seen` holds the values already emitted. -/
def firstSeenAux (seen : List String) : List String → List String
  | [] => []
  | x :: xs =>
      if x ∈ seen then firstSeenAux seen xs
      else x :: firstSeenAux (x :: seen) xs

/-- The distinct values of a list in first-seen order. -/
def firstSeen (l : List String) : List String :=
  firstSeenAux [] l

/-- An abstract description of one well-formed status-table row: the
value of the `name` column, the dict built from the remaining columns
(`raw`), and the result of popping its `type` key (`typ` and `rest`). -/
structure SRow where
  name : String
  typ : String
  raw : Row
  rest : Row
  deriving DecidableEq

/-- The part of a gateway row's name before `::` (its owning profile). -/
def gwProf (r : SRow) : String :=
  (pySplitSep r.name "::").getD 0 ""

/-- The part of a gateway row's name after `::` (the map key). -/
def gwKey (r : SRow) : String :=
  (pySplitSep r.name "::").getD 1 ""

/-- The `profiles` entries produced by a row sequence, in order. -/
def profEntries (rows : List SRow) : List (String × Row) :=
  (rows.filter (fun r => r.typ = "profile")).map (fun r => (r.name, r.rest))

/-- The `gateways` entries produced by a row sequence, in order. -/
def gwEntries (rows : List SRow) : List (String × Row) :=
  (rows.filter (fun r => r.typ = "gateway")).map
    (fun r => (gwKey r, dinsert r.rest "profile" (gwProf r)))

/-- The `aliases` entries produced by a row sequence, in order. -/
def aliasEntries (rows : List SRow) : List (String × Row) :=
  (rows.filter (fun r => r.typ = "alias")).map (fun r => (r.name, r.rest))

/-- The domain of a parsed user record. -/
def entryDomain (e : Row) : String :=
  (dlookup e "domain").getD ""

/-- Stable grouping of a list by a key function, keys in first-seen
order: the reference description of the `setdefault`-based packing loop
of `get_users`. -/
def gspec {α : Type} (dom : α → String) : List α → List (String × List α)
  | [] => []
  | e :: es =>
      (dom e, e :: es.filter (fun x => dom x = dom e)) ::
        gspec dom (es.filter (fun x => ¬(dom x = dom e)))
termination_by l => l.length
decreasing_by
  simp only [List.length_cons]
  exact Nat.lt_succ_of_le (List.length_filter_le _ _)

/-! # Helper lemmas on the dict model -/

theorem dlookup_dinsert_self {α : Type} (m : List (String × α)) (k : String)
    (v : α) : dlookup (dinsert m k v) k = some v := by
  induction m with
  | nil => simp [dinsert, dlookup]
  | cons p m ih =>
      by_cases h : p.1 = k
      · simp [dinsert, h, dlookup]
      · simp [dinsert, h, dlookup, ih]

theorem dinsert_eq_append {α : Type} (m : List (String × α)) (k : String)
    (v : α) (h : k ∉ m.map Prod.fst) : dinsert m k v = m ++ [(k, v)] := by
  induction m with
  | nil => rfl
  | cons p m ih =>
      simp only [List.map_cons, List.mem_cons] at h
      push_neg at h
      rw [dinsert, if_neg (fun hh => h.1 hh.symm), ih h.2]
      rfl

/-! # Claim C8 — `revert` and the in-memory tree -/

/-- C8: for every manager state, `revert()` delegates to the restorable
file's restore (the remote file content becomes the snapshot) and leaves
the in-memory document tree — and the file handle itself — completely
unchanged: no element, attribute or text of `etree` is touched. -/
theorem revert_restores_and_keeps_tree (m : ConfigMgr) :
    m.revert.etree = m.etree ∧ m.revert.file = m.file ∧
    m.revert.files = m.file.restore m.files :=
  ⟨rfl, rfl, rfl⟩

/-! # Claim C1 — `commit` -/

/-- C1: `commit()` serializes the in-memory tree pretty-printed, uploads
exactly those bytes to the managed path, and only then invokes the reload
command (the event trace lists the upload strictly before the reload
invocation); after a commit whose reload succeeds, the bytes at the
remote path equal the pretty-printed serialization of the tree as it was
at commit time, and the reported elapsed duration `t1 - t0` is
non-negative whenever the clock is monotone. -/
theorem commit_uploads_then_reloads (m : ConfigMgr)
    (exec : String → Except String String) (t0 t1 : Int) (s : String)
    (hreload : cli_api exec "reloadxml" = .ok s) (hclock : t0 ≤ t1) :
    m.commit exec t0 t1 =
      (.ok (t1 - t0),
        { m with files := dinsert m.files m.file.path (tostring_pretty m.etree) },
        [Ev.putFile m.file.path (tostring_pretty m.etree),
          Ev.runCmd (pyJoin " " ["api", "reloadxml"])]) ∧
    dlookup (m.commit exec t0 t1).2.1.files m.file.path =
      some (tostring_pretty m.etree) ∧
    0 ≤ t1 - t0 := by
  have h : m.commit exec t0 t1 =
      (.ok (t1 - t0),
        { m with files := dinsert m.files m.file.path (tostring_pretty m.etree) },
        [Ev.putFile m.file.path (tostring_pretty m.etree),
          Ev.runCmd (pyJoin " " ["api", "reloadxml"])]) := by
    unfold ConfigMgr.commit
    rw [hreload]
  refine ⟨h, ?_, by omega⟩
  rw [h]
  exact dlookup_dinsert_self _ _ _

/-- Witness for C1 at a concrete manager, transport and clock pair. -/
theorem commit_uploads_then_reloads_witness :
    (ConfigMgr.commit
        ⟨XTree.elem "document" [] none none .nil,
          ⟨"/fs/freeswitch.xml", "old"⟩, [("/fs/freeswitch.xml", "old")]⟩
        (fun _ => Except.ok "+OK") 0 2).1 = .ok 2 ∧ (0 : Int) ≤ 2 := by
  have h := (commit_uploads_then_reloads
      ⟨XTree.elem "document" [] none none .nil,
        ⟨"/fs/freeswitch.xml", "old"⟩, [("/fs/freeswitch.xml", "old")]⟩
      (fun _ => Except.ok "+OK") 0 2 "+OK" rfl (by decide)).1
  rw [h]
  exact ⟨rfl, by decide⟩

/-! # Claim C6 — aggregation is skipped when the sofia marker is present -/

/-- C6: when the parsed root file already matches the xpath probe
`section/configuration[@name="sofia.conf"]`, `manage_config` performs no
backup rename and no rewrite: the remote filesystem is returned untouched
(in particular the canonical path still holds the original bytes) and the
event trace is empty. -/
theorem manage_config_skips_aggregation (files : List (String × String))
    (rootpath : String) (parse : String → XTree)
    (exec : String → Except String String) (backupSuffix : String)
    (bytes : String)
    (hfile : dlookup files (confPath rootpath) = some bytes)
    (hsofia : (xpath_sofia (parse bytes)).isEmpty = false) :
    manage_config files rootpath parse exec backupSuffix =
      some (parse bytes, files, []) := by
  unfold manage_config
  simp only [hfile, hsofia]
  simp

/-- Witness for C6: a concrete single-file configuration containing the
sofia section marker. -/
theorem manage_config_skips_aggregation_witness :
    dlookup [("/etc/fs/freeswitch.xml", "xml")] (confPath "/etc/fs") =
        some "xml" ∧
    manage_config [("/etc/fs/freeswitch.xml", "xml")] "/etc/fs"
        (fun _ => XTree.elem "document" [] none none
          (.cons (XTree.elem "section" [] none none
            (.cons (XTree.elem "configuration" [("name", "sofia.conf")]
              none none .nil) .nil)) .nil))
        (fun _ => Except.ok "") "_backup_x" =
      some (XTree.elem "document" [] none none
          (.cons (XTree.elem "section" [] none none
            (.cons (XTree.elem "configuration" [("name", "sofia.conf")]
              none none .nil) .nil)) .nil),
        [("/etc/fs/freeswitch.xml", "xml")], []) := by
  refine ⟨by decide, ?_⟩
  exact manage_config_skips_aggregation _ _ _ _ _ "xml" (by decide) (by decide)

/-! # Claim C5 — `-ERR` detection and success path of `cli.__call__` -/

/-- C5: whenever the transport produces output whose trimmed text has a
last line starting with the literal `-ERR`, the invocation fails with
`CLIError` carrying the full trimmed output — and when the `-ERR` check
does not fire and no caller predicate accepts the output, the trimmed raw
text is returned. -/
theorem cli_call_err_marker (exec : String → Except String String)
    (tokens : List String) (erroron : List (String → Bool)) (raw : String)
    (hexec : exec (pyJoin " " tokens) = .ok raw) :
    (lastStartsERR (pySplitlines (pyStrip raw)) = true →
      cli_call exec tokens erroron = .error (.cliError (pyStrip raw))) ∧
    (lastStartsERR (pySplitlines (pyStrip raw)) = false →
      erroron.all (fun f => !(f (pyStrip raw))) = true →
      cli_call exec tokens erroron = .ok (pyStrip raw)) := by
  constructor
  · intro herr
    unfold cli_call
    rw [hexec]
    simp [herr]
  · intro herr hpred
    unfold cli_call
    rw [hexec]
    simp only [herr, Bool.false_eq_true, if_false, if_neg]
    rw [if_neg]
    simp only [List.all_eq_true] at hpred
    simp only [List.any_eq_true]
    rintro ⟨f, hf, hout⟩
    have := hpred f hf
    rw [hout] at this
    simp at this

/-- Witness for C5: output ending in the line `-ERR no such channel`
raises `CLIError` whose payload contains `no such channel`, and a plain
`+OK` output is returned trimmed. -/
theorem cli_call_err_marker_witness :
    cli_call (fun _ => Except.ok "foo\n-ERR no such channel") ["show"] [] =
        .error (.cliError "foo\n-ERR no such channel") ∧
    pyContains "foo\n-ERR no such channel" "no such channel" = true ∧
    cli_call (fun _ => Except.ok " +OK \n") ["show"] [] = .ok "+OK" := by
  refine ⟨?_, by decide, ?_⟩
  · have h := (cli_call_err_marker (fun _ => Except.ok "foo\n-ERR no such channel")
      ["show"] [] "foo\n-ERR no such channel" rfl).1 (by decide)
    rw [h]
    decide
  · have h := (cli_call_err_marker (fun _ => Except.ok " +OK \n")
      ["show"] [] " +OK \n" rfl).2 (by decide) (by decide)
    rw [h]
    decide

/-! # Claim C9 — precedence of the `-ERR` check over caller predicates -/

/-- C9: the `-ERR` last-line check takes precedence over the
caller-supplied predicates: when it fires, the result is the same
`CLIError` for every predicate list (so no predicate can influence — or
observe — the call), and when it does not fire, any predicate accepting
the output makes the call fail with `CLIError` carrying the output. -/
theorem cli_call_err_precedence :
    (∀ (exec : String → Except String String) (tokens : List String)
        (raw : String) (e1 e2 : List (String → Bool)),
      exec (pyJoin " " tokens) = .ok raw →
      lastStartsERR (pySplitlines (pyStrip raw)) = true →
      cli_call exec tokens e1 = cli_call exec tokens e2 ∧
        cli_call exec tokens e1 = .error (.cliError (pyStrip raw))) ∧
    (∀ (exec : String → Except String String) (tokens : List String)
        (raw : String) (erroron : List (String → Bool)),
      exec (pyJoin " " tokens) = .ok raw →
      lastStartsERR (pySplitlines (pyStrip raw)) = false →
      erroron.any (fun f => f (pyStrip raw)) = true →
      cli_call exec tokens erroron = .error (.cliError (pyStrip raw))) := by
  constructor
  · intro exec tokens raw e1 e2 hexec herr
    have h1 : cli_call exec tokens e1 = .error (.cliError (pyStrip raw)) := by
      unfold cli_call; rw [hexec]; simp [herr]
    have h2 : cli_call exec tokens e2 = .error (.cliError (pyStrip raw)) := by
      unfold cli_call; rw [hexec]; simp [herr]
    exact ⟨h1.trans h2.symm, h1⟩
  · intro exec tokens raw erroron hexec herr hpred
    unfold cli_call
    rw [hexec]
    simp [herr, hpred]

/-- Witness for C9 at concrete output and predicate lists: an `-ERR`
last line yields the same `CLIError` under different predicate lists, and
a firing predicate yields `CLIError` when `-ERR` did not fire. -/
theorem cli_call_err_precedence_witness :
    (cli_call (fun _ => Except.ok "-ERR down") ["st"] [fun _ => true] =
        cli_call (fun _ => Except.ok "-ERR down") ["st"] [] ∧
      cli_call (fun _ => Except.ok "-ERR down") ["st"] [fun _ => true] =
        .error (.cliError "-ERR down")) ∧
    cli_call (fun _ => Except.ok "ok") ["st"] [fun o => o = "ok"] =
      .error (.cliError "ok") := by
  constructor
  · have h := cli_call_err_precedence.1 (fun _ => Except.ok "-ERR down")
      ["st"] "-ERR down" [fun _ => true] [] rfl (by decide)
    constructor
    · exact h.1
    · rw [h.2]; decide
  · have h := cli_call_err_precedence.2 (fun _ => Except.ok "ok")
      ["st"] "ok" [fun o => o = "ok"] rfl (by decide) (by decide)
    rw [h]
    decide

/-! # Claim C4 — the `get_users` filter allow-list -/

theorem build_user_args_err (kwargs : List (String × String))
    (h : ∃ p ∈ kwargs, p.1 ∉ allowedUserFilters) :
    ∃ msg, build_user_args kwargs = .error msg := by
  induction kwargs with
  | nil => simp at h
  | cons p rest ih =>
      by_cases hp : p.1 ∈ allowedUserFilters
      · obtain ⟨q, hq, hbad⟩ := h
        rcases List.mem_cons.mp hq with hq | hq
        · exact absurd (hq ▸ hp) hbad
        · obtain ⟨msg, hmsg⟩ := ih ⟨q, hq, hbad⟩
          refine ⟨msg, ?_⟩
          obtain ⟨k, v⟩ := p
          rw [build_user_args, if_pos hp, hmsg]
      · refine ⟨pyJoin "" [p.1, " is not a valid argument to list_users"], ?_⟩
        obtain ⟨k, v⟩ := p
        rw [build_user_args, if_neg hp]

/-- C4: a `get_users` call with any filter name outside the allow-list
`{domain, group, user, context}` fails with `ValueError` (the spec's
`ArgumentError`) and executes no console command at all: the command
trace is empty, so neither the remote state nor the manager's state is
touched. -/
theorem get_users_rejects_bad_filter (kwargs : List (String × String))
    (exec : String → Except String String)
    (h : ∃ p ∈ kwargs, p.1 ∉ allowedUserFilters) :
    (∃ msg, (get_users kwargs exec).1 = .error (.valueError msg)) ∧
    (get_users kwargs exec).2 = [] := by
  obtain ⟨msg, hmsg⟩ := build_user_args_err kwargs h
  unfold get_users
  rw [hmsg]
  exact ⟨⟨msg, rfl⟩, rfl⟩

/-- Witness for C4: the filter name `bogus` is rejected with no command
executed. -/
theorem get_users_rejects_bad_filter_witness :
    (∃ msg, (get_users [("bogus", "x")] (fun _ => Except.ok "")).1 =
        .error (.valueError msg)) ∧
    (get_users [("bogus", "x")] (fun _ => Except.ok "")).2 = [] :=
  get_users_rejects_bad_filter [("bogus", "x")] (fun _ => Except.ok "")
    ⟨("bogus", "x"), by decide⟩

/-! # Claim C7 — the normalization loop of `manage_config` -/

mutual
theorem normalize_nodes_tree : ∀ t : XTree,
    (t.normalize.nodes.map (fun e => (e.tagOf, e.attrsOf, e.textOf, e.tailOf))) =
    (t.nodes.map
      (fun e => (e.tagOf, e.attrsOf, e.textOf.map normText, (none : Option String))))
  | .elem tag attrs text tail ch => by
      simp only [XTree.normalize, XTree.nodes, List.map_cons]
      rw [normalize_nodes_forest ch]
      rfl
theorem normalize_nodes_forest : ∀ ts : XForest,
    (ts.normalize.nodes.map (fun e => (e.tagOf, e.attrsOf, e.textOf, e.tailOf))) =
    (ts.nodes.map
      (fun e => (e.tagOf, e.attrsOf, e.textOf.map normText, (none : Option String))))
  | .nil => rfl
  | .cons t ts => by
      simp only [XForest.normalize, XForest.nodes, List.map_append]
      rw [normalize_nodes_tree t, normalize_nodes_forest ts]
end

/-- C7 (amended): the normalization loop removes the tail text of every
element unconditionally — whitespace-only or not — and replaces each
element's text content with its non-blank lines joined by the line
separator, elements with no text keeping no text.  (The claim's reading
that non-whitespace tail text is left intact is refuted by
`normalize_drops_nonblank_tail_cex`.) -/
theorem normalize_clears_all_tails (t : XTree) :
    (t.normalize.nodes.map (fun e => (e.tagOf, e.attrsOf, e.textOf, e.tailOf))) =
    (t.nodes.map
      (fun e => (e.tagOf, e.attrsOf, e.textOf.map normText, (none : Option String)))) :=
  normalize_nodes_tree t

/-- Counterexample to C7 as stated: an element whose tail text `"keep"`
is not whitespace-only nevertheless has its tail removed by the
normalization loop (`elem.tail = None` is unconditional). -/
theorem normalize_drops_nonblank_tail_cex :
    (XTree.elem "a" [] none none
        (.cons (XTree.elem "b" [] none (some "keep") .nil) .nil)).nodes.map
        XTree.tailOf = [none, some "keep"] ∧
    (pyStrip "keep").data.isEmpty = false ∧
    (XTree.elem "a" [] none none
        (.cons (XTree.elem "b" [] none (some "keep") .nil) .nil)).normalize.nodes.map
        XTree.tailOf = [none, none] := by decide

/-! # Helper lemmas for the grouping performed by `get_users` -/

theorem length_filter_add_comp {α : Type} (p : α → Bool) (l : List α) :
    (l.filter p).length + (l.filter (fun x => !(p x))).length = l.length := by
  induction l with
  | nil => rfl
  | cons x xs ih =>
      by_cases h : p x = true <;>
        simp [List.filter_cons, h, Nat.succ_eq_add_one] <;> omega

theorem map_filter_comm {α β : Type} (f : α → β) (p : β → Bool) (l : List α) :
    (l.filter (fun x => p (f x))).map f = (l.map f).filter p := by
  induction l with
  | nil => rfl
  | cons x xs ih =>
      by_cases h : p (f x) = true <;> simp [List.filter_cons, h, ih]

theorem mem_firstSeenAux (a : String) (xs : List String) : ∀ seen,
    a ∈ firstSeenAux seen xs ↔ (a ∈ xs ∧ a ∉ seen) := by
  induction xs with
  | nil => intro seen; simp [firstSeenAux]
  | cons x xs ih =>
      intro seen
      by_cases hx : x ∈ seen
      · rw [firstSeenAux, if_pos hx, ih seen]
        constructor
        · rintro ⟨h1, h2⟩; exact ⟨List.mem_cons_of_mem _ h1, h2⟩
        · rintro ⟨h1, h2⟩
          rcases List.mem_cons.mp h1 with h1 | h1
          · exact absurd (h1 ▸ hx) h2
          · exact ⟨h1, h2⟩
      · rw [firstSeenAux, if_neg hx]
        constructor
        · intro h
          rcases List.mem_cons.mp h with h | h
          · subst h; exact ⟨List.mem_cons_self _ _, hx⟩
          · obtain ⟨h1, h2⟩ := (ih (x :: seen)).mp h
            exact ⟨List.mem_cons_of_mem _ h1,
              fun hs => h2 (List.mem_cons_of_mem _ hs)⟩
        · rintro ⟨h1, h2⟩
          by_cases hax : a = x
          · rw [hax]; exact List.mem_cons_self _ _
          · rcases List.mem_cons.mp h1 with h1 | h1
            · exact absurd h1 hax
            · exact List.mem_cons_of_mem _ ((ih (x :: seen)).mpr
                ⟨h1, fun hs => (List.mem_cons.mp hs).elim hax h2⟩)

theorem firstSeenAux_eq : ∀ (n : Nat) (xs : List String), xs.length ≤ n →
    ∀ seen, firstSeenAux seen xs =
      firstSeen (xs.filter (fun a => ¬(a ∈ seen))) := by
  intro n
  induction n with
  | zero =>
      intro xs h seen
      rw [List.length_eq_zero.mp (Nat.le_zero.mp h)]
      rfl
  | succ n ih =>
      intro xs h seen
      cases xs with
      | nil => rfl
      | cons x xs =>
          simp only [List.length_cons, Nat.succ_le_succ_iff] at h
          by_cases hx : x ∈ seen
          · rw [firstSeenAux, if_pos hx, ih xs h seen]
            congr 1
            simp [List.filter_cons, hx]
          · rw [firstSeenAux, if_neg hx, ih xs h (x :: seen)]
            have hfil : (x :: xs).filter (fun a => ¬(a ∈ seen)) =
                x :: xs.filter (fun a => ¬(a ∈ seen)) := by
              simp [List.filter_cons, hx]
            rw [hfil]
            unfold firstSeen
            rw [firstSeenAux, if_neg (by simp)]
            congr 1
            rw [ih (xs.filter (fun a => ¬(a ∈ seen)))
              (le_trans (List.length_filter_le _ _) h) [x]]
            unfold firstSeen
            congr 1
            rw [List.filter_filter]
            apply List.filter_congr
            intro a _
            by_cases h1 : a = x <;> by_cases h2 : a ∈ seen <;>
              simp [h1, h2, List.mem_cons]

theorem firstSeen_cons (x : String) (l : List String) :
    firstSeen (x :: l) = x :: firstSeen (l.filter (fun a => ¬(a = x))) := by
  have h := firstSeenAux_eq l.length l (Nat.le_refl _) [x]
  have hfil : l.filter (fun a => ¬(a ∈ [x])) = l.filter (fun a => ¬(a = x)) := by
    apply List.filter_congr
    intro a _
    by_cases h : a = x <;> simp [h]
  rw [hfil] at h
  show firstSeenAux [] (x :: l) = _
  rw [firstSeenAux, if_neg (by simp), h]

theorem gspec_key_mem {α : Type} (dom : α → String) (l : List α) :
    ∀ g ∈ gspec dom l, ∃ x ∈ l, dom x = g.1 := by
  induction l using gspec.induct dom with
  | case1 => simp [gspec]
  | case2 e es ih =>
      intro g hg
      rw [gspec] at hg
      rcases List.mem_cons.mp hg with hg | hg
      · exact ⟨e, List.mem_cons_self _ _, by rw [hg]⟩
      · obtain ⟨x, hx, hdx⟩ := ih g hg
        exact ⟨x, List.mem_cons_of_mem _ (List.mem_of_mem_filter hx), hdx⟩

theorem gspec_sizes {α : Type} (dom : α → String) (l : List α) :
    ((gspec dom l).map (fun g => g.2.length)).sum = l.length := by
  induction l using gspec.induct dom with
  | case1 => simp [gspec]
  | case2 e es ih =>
      rw [gspec]
      simp only [List.map_cons, List.sum_cons, List.length_cons, ih]
      have hsplit := length_filter_add_comp (fun x => decide (dom x = dom e)) es
      have hcongr : es.filter (fun x => ¬(dom x = dom e)) =
          es.filter (fun x => !(decide (dom x = dom e))) := by
        apply List.filter_congr
        intro a _
        simp
      rw [hcongr]
      omega

theorem gspec_keys {α : Type} (dom : α → String) (l : List α) :
    (gspec dom l).map Prod.fst = firstSeen (l.map dom) := by
  induction l using gspec.induct dom with
  | case1 => simp [gspec, firstSeen, firstSeenAux]
  | case2 e es ih =>
      rw [gspec]
      simp only [List.map_cons]
      rw [ih, firstSeen_cons]
      congr 1
      rw [← map_filter_comm dom (fun d => ¬(d = dom e)) es]

theorem gspec_groups {α : Type} (dom : α → String) (l : List α) :
    ∀ g ∈ gspec dom l, g.2 = l.filter (fun x => dom x = g.1) := by
  induction l using gspec.induct dom with
  | case1 => simp [gspec]
  | case2 e es ih =>
      intro g hg
      rw [gspec] at hg
      rcases List.mem_cons.mp hg with hg | hg
      · rw [hg]
        simp [List.filter_cons]
      · have hne : ¬(dom e = g.1) := by
          obtain ⟨x, hx, hdx⟩ := gspec_key_mem dom _ g hg
          have := List.of_mem_filter hx
          simp only [decide_eq_true_eq] at this
          intro hcon
          exact this (hdx.trans hcon.symm)
        rw [ih g hg]
        rw [List.filter_filter, List.filter_cons,
          if_neg (by simpa using fun hcon => hne hcon)]
        apply List.filter_congr
        intro a _
        by_cases h1 : dom a = g.1
        · have h2 : ¬(g.1 = dom e) := fun hcon => hne hcon.symm
          simp [h1, h2]
        · simp [h1]

theorem gspec_groups_fields {α : Type} (dom : α → String) (l : List α) :
    ∀ g ∈ gspec dom l, ∀ e ∈ g.2, e ∈ l := by
  intro g hg e he
  rw [gspec_groups dom l g hg] at he
  exact List.mem_of_mem_filter he

theorem dappend_gspec {α : Type} (dom : α → String) (e : α) (l : List α) :
    dappend (gspec dom l) (dom e) e = gspec dom (l ++ [e]) := by
  induction l using gspec.induct dom with
  | case1 => simp [gspec, dappend]
  | case2 x xs ih =>
      rw [gspec]
      by_cases h : dom x = dom e
      · rw [dappend, if_pos h]
        conv_rhs => rw [List.cons_append, gspec]
        rw [List.filter_append, List.filter_append]
        simp only [List.filter_cons, List.filter_nil]
        rw [if_pos (by simp [h.symm]), if_neg (by simp [h.symm])]
        simp
      · rw [dappend, if_neg h]
        conv_rhs => rw [List.cons_append, gspec]
        rw [List.filter_append, List.filter_append]
        simp only [List.filter_cons, List.filter_nil]
        rw [if_neg (by simp; intro hcon; exact h hcon.symm),
          if_pos (by simp; intro hcon; exact h hcon.symm)]
        rw [List.append_nil, ih]

theorem foldl_dappend_gspec {α : Type} (dom : α → String) (l : List α) :
    l.foldl (fun m e => dappend m (dom e) e) [] = gspec dom l := by
  induction l using List.reverseRecOn with
  | nil => simp [gspec]
  | append_singleton l e ih =>
      rw [List.foldl_append, List.foldl_cons, List.foldl_nil, ih, dappend_gspec]

/-! # Claim C3 — the `get_users` parser -/

theorem parse_user_rows_eq (fields : List String) :
    ∀ (rows : List String) (vals : List (List String)),
      rows.map (fun l => pySplitSep l "|") = vals →
      (∀ v ∈ vals, v.length = fields.length) →
      parse_user_rows fields rows = some (vals.map (fun v => fields.zip v)) := by
  intro rows
  induction rows with
  | nil =>
      intro vals h _
      rw [← h]
      rfl
  | cons r rs ih =>
      intro vals h hlen
      cases vals with
      | nil => simp at h
      | cons v vs =>
          simp only [List.map_cons, List.cons.injEq] at h
          obtain ⟨h1, h2⟩ := h
          rw [parse_user_rows]
          have hmk : mk_user_entry fields r = some (fields.zip v) := by
            unfold mk_user_entry
            rw [h1, if_pos (hlen v (List.mem_cons_self _ _))]
          rw [hmk, ih vs h2 (fun v hv => hlen v (List.mem_cons_of_mem _ hv))]
          simp

theorem dlookup_zip_isSome : ∀ (fields : List String) (v : List String)
    (k : String), k ∈ fields → v.length = fields.length →
    (dlookup (fields.zip v) k).isSome = true := by
  intro fields
  induction fields with
  | nil => intro v k hk _; simp at hk
  | cons f fs ih =>
      intro v k hk hlen
      cases v with
      | nil => simp at hlen
      | cons a vs =>
          simp only [List.zip_cons_cons, dlookup]
          by_cases hfk : f = k
          · simp [hfk]
          · rw [if_neg hfk]
            have hk2 : k ∈ fs := by
              rcases List.mem_cons.mp hk with h | h
              · exact absurd h.symm hfk
              · exact h
            simp only [List.length_cons, Nat.succ.injEq] at hlen
            exact ih vs k hk2 hlen

theorem pack_domains_eq : ∀ (us : List Row)
    (m : List (String × List Row)),
    (∀ u ∈ us, (dlookup u "domain").isSome = true) →
    pack_domains m us =
      some (us.foldl (fun m u => dappend m (entryDomain u) u) m) := by
  intro us
  induction us with
  | nil => intro m _; rfl
  | cons u us ih =>
      intro m h
      obtain ⟨d, hd⟩ := Option.isSome_iff_exists.mp (h u (List.mem_cons_self _ _))
      have hdom : entryDomain u = d := by
        unfold entryDomain
        rw [hd]
        rfl
      simp only [pack_domains, hd]
      rw [ih (dappend m d u) (fun u hu => h u (List.mem_cons_of_mem _ hu))]
      rw [List.foldl_cons, hdom]

/-- C3: for every user-directory output whose lines are a valid header,
`R` data rows each pipe-splitting to the header's field count, and two
trailer lines, `get_users_parse` succeeds and returns a grouping whose
record count summed over all domains is exactly `R`, whose domain keys
appear in first-seen order of the records' `domain` values, whose
per-domain record lists are the input records with that domain in input
order, and whose records carry the header's field names in header
order. -/
theorem get_users_parse_wellformed
    (out header trailer1 trailer2 : String) (rowLines : List String)
    (fields : List String) (vals : List (List String))
    (H0 : pySplitlines out = header :: (rowLines ++ [trailer1, trailer2]))
    (H1 : pySplitSep header "|" = fields)
    (H2 : namedtupleFieldsOK fields = true)
    (H3 : "domain" ∈ fields)
    (H4 : rowLines.map (fun l => pySplitSep l "|") = vals)
    (H5 : ∀ v ∈ vals, v.length = fields.length) :
    ∃ res, get_users_parse out = some res ∧
      (res.map (fun g => g.2.length)).sum = rowLines.length ∧
      res.map Prod.fst =
        firstSeen ((vals.map (fun v => fields.zip v)).map entryDomain) ∧
      (∀ g ∈ res, g.2 = (vals.map (fun v => fields.zip v)).filter
        (fun e => entryDomain e = g.1)) ∧
      (∀ g ∈ res, ∀ e ∈ g.2, e.map Prod.fst = fields) := by
  have hdrop : (pySplitlines out).dropLast.dropLast = header :: rowLines := by
    rw [H0]
    rw [show header :: (rowLines ++ [trailer1, trailer2]) =
      ((header :: rowLines) ++ [trailer1]) ++ [trailer2] by simp]
    rw [List.dropLast_concat, List.dropLast_concat]
  have hlooks : ∀ u ∈ vals.map (fun v => fields.zip v),
      (dlookup u "domain").isSome = true := by
    intro u hu
    obtain ⟨v, hv, hvu⟩ := List.mem_map.mp hu
    rw [← hvu]
    exact dlookup_zip_isSome fields v "domain" H3 (H5 v hv)
  have hparse : get_users_parse out =
      some (gspec entryDomain (vals.map (fun v => fields.zip v))) := by
    unfold get_users_parse
    rw [hdrop]
    simp only [H1, H2, if_true]
    simp only [parse_user_rows_eq fields rowLines vals H4 H5]
    rw [pack_domains_eq _ _ hlooks]
    rw [foldl_dappend_gspec]
  refine ⟨_, hparse, ?_, ?_, ?_, ?_⟩
  · rw [gspec_sizes]
    rw [List.length_map]
    rw [← H4, List.length_map]
  · rw [gspec_keys]
  · intro g hg
    exact gspec_groups entryDomain _ g hg
  · intro g hg e he
    have hmem := gspec_groups_fields entryDomain _ g hg e he
    obtain ⟨v, hv, hvu⟩ := List.mem_map.mp hmem
    rw [← hvu]
    exact List.map_fst_zip fields v (by rw [H5 v hv])

/-- Witness for C3: two data rows across two domains. -/
theorem get_users_parse_wellformed_witness :
    ∃ res, get_users_parse
        "userid|context|domain\nu1|default|d1\nu2|other|d2\n\n+OK" =
        some res ∧
      (res.map (fun g => g.2.length)).sum = 2 := by
  obtain ⟨res, h1, h2, _⟩ := get_users_parse_wellformed
    "userid|context|domain\nu1|default|d1\nu2|other|d2\n\n+OK"
    "userid|context|domain" "" "+OK" ["u1|default|d1", "u2|other|d2"]
    ["userid", "context", "domain"]
    [["u1", "default", "d1"], ["u2", "other", "d2"]]
    (by decide) (by decide) (by decide) (by decide) (by decide) (by decide)
  exact ⟨res, h1, by simpa using h2⟩

/-! # Helper lemmas for the `sofia_status` row loop -/

theorem profEntries_cons (r : SRow) (rows : List SRow) :
    profEntries (r :: rows) =
      (if r.typ = "profile" then [(r.name, r.rest)] else []) ++
        profEntries rows := by
  unfold profEntries
  by_cases h : r.typ = "profile" <;> simp [List.filter_cons, h]

theorem gwEntries_cons (r : SRow) (rows : List SRow) :
    gwEntries (r :: rows) =
      (if r.typ = "gateway"
        then [(gwKey r, dinsert r.rest "profile" (gwProf r))] else []) ++
        gwEntries rows := by
  unfold gwEntries
  by_cases h : r.typ = "gateway" <;> simp [List.filter_cons, h]

theorem aliasEntries_cons (r : SRow) (rows : List SRow) :
    aliasEntries (r :: rows) =
      (if r.typ = "alias" then [(r.name, r.rest)] else []) ++
        aliasEntries rows := by
  unfold aliasEntries
  by_cases h : r.typ = "alias" <;> simp [List.filter_cons, h]

theorem pair_of_length_two (l : List String) (h : l.length = 2) :
    l = [l.getD 0 "", l.getD 1 ""] := by
  match l, h with
  | [a, b], _ => rfl

theorem sofia_step_row (colnames : List String) (iname : Nat)
    (st : SofiaStatus) (line : String) (r : SRow)
    (h : sofia_row colnames iname line = some (r.name, r.raw)) :
    sofia_step colnames iname st line = sofia_dispatch st r.name r.raw := by
  simp only [sofia_step, h]

theorem sofia_dispatch_profile (st : SofiaStatus) (r : SRow)
    (hdp : dpop r.raw "type" = some (r.typ, r.rest)) (ht : r.typ = "profile") :
    sofia_dispatch st r.name r.raw =
      some ⟨dinsert st.profiles r.name r.rest, st.gateways, st.aliases⟩ := by
  unfold sofia_dispatch
  rw [hdp, ht]
  simp

theorem sofia_dispatch_gateway (st : SofiaStatus) (r : SRow)
    (hdp : dpop r.raw "type" = some (r.typ, r.rest)) (ht : r.typ = "gateway")
    (hsp : (pySplitSep r.name "::").length = 2) :
    sofia_dispatch st r.name r.raw =
      some ⟨st.profiles,
        dinsert st.gateways (gwKey r) (dinsert r.rest "profile" (gwProf r)),
        st.aliases⟩ := by
  unfold sofia_dispatch
  rw [hdp, ht, pair_of_length_two _ hsp]
  simp [gwKey, gwProf]

theorem sofia_dispatch_alias (st : SofiaStatus) (r : SRow)
    (hdp : dpop r.raw "type" = some (r.typ, r.rest)) (ht : r.typ = "alias") :
    sofia_dispatch st r.name r.raw =
      some ⟨st.profiles, st.gateways, dinsert st.aliases r.name r.rest⟩ := by
  unfold sofia_dispatch
  rw [hdp, ht]
  simp

theorem sofia_dispatch_other (st : SofiaStatus) (r : SRow)
    (hdp : dpop r.raw "type" = some (r.typ, r.rest))
    (h1 : ¬(r.typ = "profile")) (h2 : ¬(r.typ = "gateway"))
    (h3 : ¬(r.typ = "alias")) :
    sofia_dispatch st r.name r.raw = some st := by
  unfold sofia_dispatch
  simp only [hdp]
  rw [if_neg h1, if_neg h2, if_neg h3]

theorem key_notmem_of_nodup_append (a : List String) (k : String)
    (b : List String) (h : (a ++ k :: b).Nodup) : k ∉ a := by
  rw [List.nodup_append] at h
  exact fun hk => h.2.2 hk (List.mem_cons_self _ _)

theorem nodup_shift (a : List String) (k : String) (b : List String)
    (h : (a ++ k :: b).Nodup) : ((a ++ [k]) ++ b).Nodup := by
  rw [List.append_assoc, List.singleton_append]
  exact h

/-- Invariant of the `sofia_status` row loop: for well-formed rows with
fresh keys, the loop succeeds and appends exactly the entries described
by `profEntries`, `gwEntries` and `aliasEntries`. -/
theorem sofia_fold_eq (colnames : List String) (iname : Nat) :
    ∀ (rows : List SRow) (dataLines : List String) (st : SofiaStatus),
      dataLines.map (sofia_row colnames iname) =
        rows.map (fun r => some (r.name, r.raw)) →
      (∀ r ∈ rows, dpop r.raw "type" = some (r.typ, r.rest)) →
      (∀ r ∈ rows, r.typ = "gateway" → (pySplitSep r.name "::").length = 2) →
      (st.profiles.map Prod.fst ++ (profEntries rows).map Prod.fst).Nodup →
      (st.gateways.map Prod.fst ++ (gwEntries rows).map Prod.fst).Nodup →
      (st.aliases.map Prod.fst ++ (aliasEntries rows).map Prod.fst).Nodup →
      sofia_fold colnames iname st dataLines =
        some ⟨st.profiles ++ profEntries rows,
          st.gateways ++ gwEntries rows,
          st.aliases ++ aliasEntries rows⟩ := by
  intro rows
  induction rows with
  | nil =>
      intro dataLines st h _ _ _ _ _
      simp only [List.map_nil, List.map_eq_nil_iff] at h
      rw [h]
      simp [sofia_fold, profEntries, gwEntries, aliasEntries]
  | cons r rows ih =>
      intro dataLines st h hdp hgw np ng na
      cases dataLines with
      | nil => simp at h
      | cons line rest =>
          simp only [List.map_cons, List.cons.injEq] at h
          obtain ⟨h1, h2⟩ := h
          have hdpr := hdp r (List.mem_cons_self _ _)
          have hdp2 := fun x hx => hdp x (List.mem_cons_of_mem _ hx)
          have hgw2 := fun x hx => hgw x (List.mem_cons_of_mem _ hx)
          by_cases hp : r.typ = "profile"
          · rw [profEntries_cons, if_pos hp] at np
            rw [gwEntries_cons, if_neg (by rw [hp]; decide)] at ng
            rw [aliasEntries_cons, if_neg (by rw [hp]; decide)] at na
            simp only [List.map_append, List.map_cons, List.map_nil,
              List.singleton_append, List.nil_append] at np ng na
            have hfresh : r.name ∉ st.profiles.map Prod.fst :=
              key_notmem_of_nodup_append _ _ _ np
            have hrec := ih rest
              ⟨st.profiles ++ [(r.name, r.rest)], st.gateways, st.aliases⟩
              h2 hdp2 hgw2 (by simpa using np) (by simpa using ng)
              (by simpa using na)
            simp only [sofia_fold, sofia_step_row colnames iname st line r h1,
              sofia_dispatch_profile st r hdpr hp,
              dinsert_eq_append st.profiles r.name r.rest hfresh, hrec]
            rw [profEntries_cons, if_pos hp, gwEntries_cons,
              if_neg (by rw [hp]; decide), aliasEntries_cons,
              if_neg (by rw [hp]; decide)]
            simp
          · by_cases hg : r.typ = "gateway"
            · have hsp := hgw r (List.mem_cons_self _ _) hg
              rw [profEntries_cons, if_neg hp] at np
              rw [gwEntries_cons, if_pos hg] at ng
              rw [aliasEntries_cons, if_neg (by rw [hg]; decide)] at na
              simp only [List.map_append, List.map_cons, List.map_nil,
                List.singleton_append, List.nil_append] at np ng na
              have hfresh : gwKey r ∉ st.gateways.map Prod.fst :=
                key_notmem_of_nodup_append _ _ _ ng
              have hrec := ih rest
                ⟨st.profiles,
                  st.gateways ++ [(gwKey r, dinsert r.rest "profile" (gwProf r))],
                  st.aliases⟩
                h2 hdp2 hgw2 (by simpa using np) (by simpa using ng)
                (by simpa using na)
              simp only [sofia_fold, sofia_step_row colnames iname st line r h1,
                sofia_dispatch_gateway st r hdpr hg hsp,
                dinsert_eq_append st.gateways (gwKey r)
                  (dinsert r.rest "profile" (gwProf r)) hfresh, hrec]
              rw [profEntries_cons, if_neg hp, gwEntries_cons, if_pos hg,
                aliasEntries_cons, if_neg (by rw [hg]; decide)]
              simp
            · by_cases ha : r.typ = "alias"
              · rw [profEntries_cons, if_neg hp] at np
                rw [gwEntries_cons, if_neg hg] at ng
                rw [aliasEntries_cons, if_pos ha] at na
                simp only [List.map_append, List.map_cons, List.map_nil,
                  List.singleton_append, List.nil_append] at np ng na
                have hfresh : r.name ∉ st.aliases.map Prod.fst :=
                  key_notmem_of_nodup_append _ _ _ na
                have hrec := ih rest
                  ⟨st.profiles, st.gateways, st.aliases ++ [(r.name, r.rest)]⟩
                  h2 hdp2 hgw2 (by simpa using np) (by simpa using ng)
                  (by simpa using na)
                simp only [sofia_fold, sofia_step_row colnames iname st line r h1,
                  sofia_dispatch_alias st r hdpr ha,
                  dinsert_eq_append st.aliases r.name r.rest hfresh, hrec]
                rw [profEntries_cons, if_neg hp, gwEntries_cons, if_neg hg,
                  aliasEntries_cons, if_pos ha]
                simp
              · rw [profEntries_cons, if_neg hp] at np
                rw [gwEntries_cons, if_neg hg] at ng
                rw [aliasEntries_cons, if_neg ha] at na
                simp only [List.nil_append] at np ng na
                have hrec := ih rest st h2 hdp2 hgw2 np ng na
                simp only [sofia_fold, sofia_step_row colnames iname st line r h1,
                  sofia_dispatch_other st r hdpr hp hg ha, hrec]
                rw [profEntries_cons, if_neg hp, gwEntries_cons, if_neg hg,
                  aliasEntries_cons, if_neg ha]
                simp

/-- Reduction of `sofia_status` to its row loop for any output whose
line structure is pinned down: a header, data lines and a summary line
remain after dropping the `===` separators. -/
theorem sofia_status_pipeline
    (out header summary : String) (dataLines : List String)
    (colnames0 : List String) (iname : Nat)
    (H0 : (pySplitlines out).filter (fun l => !(pyContains l "===")) =
      header :: (dataLines ++ [summary]))
    (H1 : (pySplitWs header).map pyLower = colnames0)
    (H2 : pyIndex colnames0 "name" = some iname) :
    sofia_status out =
      sofia_fold (pyRemove colnames0 "name") iname ⟨[], [], []⟩ dataLines := by
  have hdl : (header :: (dataLines ++ [summary])).dropLast =
      header :: dataLines := by
    rw [show header :: (dataLines ++ [summary]) =
      (header :: dataLines) ++ [summary] from by simp]
    rw [List.dropLast_concat]
  unfold sofia_status
  simp only [H0, hdl, H1, H2]

/-! # Claim C2 — well-formed status tables -/

/-- C2 (amended): for every well-formed status-table text — a header
containing a `name` column, data rows parsing to abstract rows, a summary
line — whose gateway names each contain exactly one `::`, whose profile
and alias names are distinct within their category, and whose gateway
names have distinct parts after `::`, `sofia_status` succeeds; the three
maps are exactly the per-category entries in row order (so their sizes
are exactly the numbers of profile, gateway and alias rows, rows of any
other type being silently dropped), each gateway is keyed by the part of
its name after `::`, and its added `profile` field is the part before
`::`.  (The original claim assumed only distinct gateway row names; it
fails when two distinct names share the part after `::`, see
`sofia_status_gateway_collision_cex`.) -/
theorem sofia_status_wellformed
    (out header summary : String) (dataLines : List String)
    (colnames0 : List String) (iname : Nat) (rows : List SRow)
    (H0 : (pySplitlines out).filter (fun l => !(pyContains l "===")) =
      header :: (dataLines ++ [summary]))
    (H1 : (pySplitWs header).map pyLower = colnames0)
    (H2 : pyIndex colnames0 "name" = some iname)
    (H3 : dataLines.map (sofia_row (pyRemove colnames0 "name") iname) =
      rows.map (fun r => some (r.name, r.raw)))
    (H4 : ∀ r ∈ rows, dpop r.raw "type" = some (r.typ, r.rest))
    (H5 : ∀ r ∈ rows, r.typ = "gateway" → occCount r.name "::" = 1)
    (H6 : ((rows.filter (fun r => r.typ = "profile")).map
      (fun r => r.name)).Nodup)
    (H7 : ((rows.filter (fun r => r.typ = "gateway")).map
      (fun r => gwKey r)).Nodup)
    (H8 : ((rows.filter (fun r => r.typ = "alias")).map
      (fun r => r.name)).Nodup) :
    sofia_status out =
      some ⟨profEntries rows, gwEntries rows, aliasEntries rows⟩ ∧
    (profEntries rows).length =
      (rows.filter (fun r => r.typ = "profile")).length ∧
    (gwEntries rows).length =
      (rows.filter (fun r => r.typ = "gateway")).length ∧
    (aliasEntries rows).length =
      (rows.filter (fun r => r.typ = "alias")).length ∧
    (∀ r ∈ rows, r.typ = "gateway" →
      dlookup (dinsert r.rest "profile" (gwProf r)) "profile" =
        some (gwProf r)) := by
  have hgw : ∀ r ∈ rows, r.typ = "gateway" →
      (pySplitSep r.name "::").length = 2 := by
    intro r hr ht
    have h := H5 r hr ht
    unfold occCount at h
    omega
  refine ⟨?_, by simp [profEntries], by simp [gwEntries],
    by simp [aliasEntries], fun r _ _ => dlookup_dinsert_self _ _ _⟩
  rw [sofia_status_pipeline out header summary dataLines colnames0 iname
    H0 H1 H2]
  exact sofia_fold_eq (pyRemove colnames0 "name") iname rows dataLines
    ⟨[], [], []⟩ H3 H4 hgw
    (by simpa [profEntries, List.map_map, Function.comp] using H6)
    (by simpa [gwEntries, List.map_map, Function.comp] using H7)
    (by simpa [aliasEntries, List.map_map, Function.comp] using H8)

/-- Counterexample to C2 as stated: a well-formed table with two gateway
rows whose names `p1::g` and `p2::g` are distinct (and each contain
exactly one `::`) yields a gateways map of size 1, not 2: the second
assignment to the shared key `g` (the part after `::`) overwrites the
first. -/
theorem sofia_status_gateway_collision_cex :
    occCount "p1::g" "::" = 1 ∧ occCount "p2::g" "::" = 1 ∧
    ¬("p1::g" = "p2::g") ∧
    sofia_status
        "Name\tType\n======\np1::g\tgateway\np2::g\tgateway\n2 gateways" =
      some ⟨[], [("g", [("profile", "p2")])], []⟩ ∧
    ¬(([("g", [("profile", "p2")])] : List (String × Row)).length = 2) := by
  decide

/-- Witness for C2 (amended) at a concrete table with one profile row,
one gateway row, one alias row and one row of unknown type. -/
theorem sofia_status_wellformed_witness :
    sofia_status
        "Name\tType\tState\n=========\np1\tprofile\trunning\nprof1::gw1\tgateway\treged\na1\talias\tup\nx\tweird\tz\n1 profile 1 gateway 1 alias" =
      some ⟨[("p1", [("state", "running")])],
        [("gw1", [("state", "reged"), ("profile", "prof1")])],
        [("a1", [("state", "up")])]⟩ := by
  have h := (sofia_status_wellformed
    "Name\tType\tState\n=========\np1\tprofile\trunning\nprof1::gw1\tgateway\treged\na1\talias\tup\nx\tweird\tz\n1 profile 1 gateway 1 alias"
    "Name\tType\tState" "1 profile 1 gateway 1 alias"
    ["p1\tprofile\trunning", "prof1::gw1\tgateway\treged", "a1\talias\tup",
      "x\tweird\tz"]
    ["name", "type", "state"] 0
    [⟨"p1", "profile", [("type", "profile"), ("state", "running")],
        [("state", "running")]⟩,
      ⟨"prof1::gw1", "gateway", [("type", "gateway"), ("state", "reged")],
        [("state", "reged")]⟩,
      ⟨"a1", "alias", [("type", "alias"), ("state", "up")],
        [("state", "up")]⟩,
      ⟨"x", "weird", [("type", "weird"), ("state", "z")], [("state", "z")]⟩]
    (by decide) (by decide) (by decide) (by decide) (by decide) (by decide)
    (by decide) (by decide) (by decide)).1
  rw [h]
  decide

/-! # Claim C10 — gateway names must contain exactly one `::` -/

theorem sofia_dispatch_gw_none (st : SofiaStatus) (name : String)
    (raw rest : Row) (hdp : dpop raw "type" = some ("gateway", rest))
    (hlen : ¬((pySplitSep name "::").length = 2)) :
    sofia_dispatch st name raw = none := by
  unfold sofia_dispatch
  simp only [hdp, if_true]
  rcases hs : pySplitSep name "::" with _ | ⟨a, _ | ⟨b, _ | ⟨c, t⟩⟩⟩
  · simp [hs]
  · simp [hs]
  · exact absurd (by simp [hs] : (pySplitSep name "::").length = 2) hlen
  · simp [hs]

theorem sofia_fold_none (colnames : List String) (iname : Nat) :
    ∀ (pre : List SRow) (bad : SRow) (post : List SRow)
      (dataLines : List String) (st : SofiaStatus),
      dataLines.map (sofia_row colnames iname) =
        (pre ++ bad :: post).map (fun r => some (r.name, r.raw)) →
      (∀ r ∈ pre ++ bad :: post, dpop r.raw "type" = some (r.typ, r.rest)) →
      (∀ r ∈ pre, r.typ = "gateway" → (pySplitSep r.name "::").length = 2) →
      bad.typ = "gateway" →
      ¬((pySplitSep bad.name "::").length = 2) →
      sofia_fold colnames iname st dataLines = none := by
  intro pre
  induction pre with
  | nil =>
      intro bad post dataLines st h hdp _ hbt hbl
      cases dataLines with
      | nil => simp at h
      | cons line rest =>
          simp only [List.nil_append, List.map_cons, List.cons.injEq] at h
          obtain ⟨h1, h2⟩ := h
          have hdpb := hdp bad (by simp)
          rw [hbt] at hdpb
          simp only [sofia_fold, sofia_step_row colnames iname st line bad h1,
            sofia_dispatch_gw_none st bad.name bad.raw bad.rest hdpb hbl]
  | cons p pre ih =>
      intro bad post dataLines st h hdp hgw hbt hbl
      cases dataLines with
      | nil => simp at h
      | cons line rest =>
          simp only [List.cons_append, List.map_cons, List.cons.injEq] at h
          obtain ⟨h1, h2⟩ := h
          have hdpr := hdp p (by simp)
          have hdp2 : ∀ r ∈ pre ++ bad :: post,
              dpop r.raw "type" = some (r.typ, r.rest) :=
            fun r hr => hdp r (List.mem_cons_of_mem _ hr)
          have hgw2 := fun r hr => hgw r (List.mem_cons_of_mem _ hr)
          by_cases hp : p.typ = "profile"
          · simp only [sofia_fold, sofia_step_row colnames iname st line p h1,
              sofia_dispatch_profile st p hdpr hp]
            exact ih bad post rest _ h2 hdp2 hgw2 hbt hbl
          · by_cases hg : p.typ = "gateway"
            · simp only [sofia_fold, sofia_step_row colnames iname st line p h1,
                sofia_dispatch_gateway st p hdpr hg
                  (hgw p (List.mem_cons_self _ _) hg)]
              exact ih bad post rest _ h2 hdp2 hgw2 hbt hbl
            · by_cases ha : p.typ = "alias"
              · simp only [sofia_fold,
                  sofia_step_row colnames iname st line p h1,
                  sofia_dispatch_alias st p hdpr ha]
                exact ih bad post rest _ h2 hdp2 hgw2 hbt hbl
              · simp only [sofia_fold,
                  sofia_step_row colnames iname st line p h1,
                  sofia_dispatch_other st p hdpr hp hg ha]
                exact ih bad post rest _ h2 hdp2 hgw2 hbt hbl

/-- C10: the name split of a gateway row succeeds exactly when the name
contains exactly one (non-overlapping) occurrence of `::` — first
conjunct: the row dispatch produces a result if and only if the
occurrence count is 1; second conjunct: one gateway row with an
occurrence count other than 1 in an otherwise well-formed table makes
the whole `sofia_status` call fail (`none` models the propagated
`ValueError`; no partial result is returned and the row is not
dropped). -/
theorem sofia_gateway_separator :
    (∀ (st : SofiaStatus) (name : String) (raw rest : Row),
      dpop raw "type" = some ("gateway", rest) →
      ((sofia_dispatch st name raw).isSome = true ↔
        occCount name "::" = 1)) ∧
    (∀ (out header summary : String) (dataLines : List String)
      (colnames0 : List String) (iname : Nat)
      (pre : List SRow) (bad : SRow) (post : List SRow),
      (pySplitlines out).filter (fun l => !(pyContains l "===")) =
        header :: (dataLines ++ [summary]) →
      (pySplitWs header).map pyLower = colnames0 →
      pyIndex colnames0 "name" = some iname →
      dataLines.map (sofia_row (pyRemove colnames0 "name") iname) =
        (pre ++ bad :: post).map (fun r => some (r.name, r.raw)) →
      (∀ r ∈ pre ++ bad :: post,
        dpop r.raw "type" = some (r.typ, r.rest)) →
      (∀ r ∈ pre, r.typ = "gateway" → occCount r.name "::" = 1) →
      bad.typ = "gateway" →
      ¬(occCount bad.name "::" = 1) →
      sofia_status out = none) := by
  constructor
  · intro st name raw rest hdp
    unfold sofia_dispatch
    simp only [hdp, if_true]
    rcases hs : pySplitSep name "::" with _ | ⟨a, _ | ⟨b, _ | ⟨c, t⟩⟩⟩
    · simp [hs, occCount]
    · simp [hs, occCount]
    · simp [hs, occCount]
    · simp only [hs, occCount, List.length_cons]
      constructor
      · intro hcon
        simp at hcon
      · intro hcon
        omega
  · intro out header summary dataLines colnames0 iname pre bad post
      H0 H1 H2 H3 H4 H5 hbt hbl
    rw [sofia_status_pipeline out header summary dataLines colnames0 iname
      H0 H1 H2]
    have hgw : ∀ r ∈ pre, r.typ = "gateway" →
        (pySplitSep r.name "::").length = 2 := by
      intro r hr ht
      have h := H5 r hr ht
      unfold occCount at h
      omega
    have hbl2 : ¬((pySplitSep bad.name "::").length = 2) := by
      intro hcon
      exact hbl (by unfold occCount; omega)
    exact sofia_fold_none (pyRemove colnames0 "name") iname pre bad post
      dataLines ⟨[], [], []⟩ H3 H4 hgw hbt hbl2

/-- Witness for C10 at a concrete table whose single gateway row's name
has no `::` separator: the whole call fails. -/
theorem sofia_gateway_separator_witness :
    sofia_status "Name\tType\npg\tgateway\n1 gateway" = none := by
  exact sofia_gateway_separator.2
    "Name\tType\npg\tgateway\n1 gateway" "Name\tType" "1 gateway"
    ["pg\tgateway"] ["name", "type"] 0 []
    ⟨"pg", "gateway", [("type", "gateway")], []⟩ []
    (by decide) (by decide) (by decide) (by decide) (by decide) (by decide)
    (by decide) (by decide)

end Sandswitches
